import Mathlib

/-!
Verification of the parsing and aggregation engine of `TransactionCalculator`
(`src/transaction/bot.py`).  The Python code is shallowly embedded: strings are
Lean `String`s (lists of unicode code points, as in Python), the regular
expressions of the source are hand-compiled into scanning functions with the
same leftmost-match-with-backtracking semantics, and Python `float` amounts are
modelled as exact rationals `ℚ`.
-/

attribute [local semireducible] Rat.add Rat.mul Rat.sub Rat.inv Rat.ofScientific

set_option maxRecDepth 100000

namespace Calc

/-! ## Python string primitives -/

/-- The characters Python's `str.strip` / `str.split()` treat as whitespace
(the ASCII ones; `\x0b` and `\x0c` are vertical tab and form feed). -/
def isPySpace (c : Char) : Bool :=
  c == ' ' || c == '\t' || c == '\n' || c == '\r' || c == '\u000B' || c == '\u000C'

/-- `str.lower`, for the character ranges that occur in this bot
(ASCII plus the Cyrillic block used by the marker words). -/
def pyLowerChar (c : Char) : Char :=
  if 'A' ≤ c && c ≤ 'Z' then Char.ofNat (c.toNat + 32)
  else if 0x410 ≤ c.toNat && c.toNat ≤ 0x42F then Char.ofNat (c.toNat + 0x20)
  else if c.toNat == 0x401 then Char.ofNat 0x451
  else c

/-- `str.upper` for ASCII letters (the regex groups it is applied to only
contain ASCII alphanumerics). -/
def pyUpperChar (c : Char) : Char :=
  if 'a' ≤ c && c ≤ 'z' then Char.ofNat (c.toNat - 32) else c

def pyLower (s : String) : String := ⟨s.data.map pyLowerChar⟩

/-- `str.strip()` on the underlying character list. -/
def pyStripL (l : List Char) : List Char :=
  ((l.dropWhile isPySpace).reverse.dropWhile isPySpace).reverse

def pyStrip (s : String) : String := ⟨pyStripL s.data⟩

/-- Python `str.split(sep)` for a one-character separator: splits at every
occurrence, keeping empty pieces; the result is never empty. -/
def splitCharL (sep : Char) : List Char → List (List Char)
  | [] => [[]]
  | c :: t =>
    if c = sep then [] :: splitCharL sep t
    else
      match splitCharL sep t with
      | [] => [[c]]
      | h :: r => (c :: h) :: r

def pySplit (sep : Char) (s : String) : List String :=
  (splitCharL sep s.data).map (fun l => ⟨l⟩)

/-- Python `' '.join(parts)`. -/
def joinSpace : List String → String
  | [] => ""
  | [t] => t
  | t :: ts => t ++ " " ++ joinSpace ts

/-- Helper for `str.split()`: `acc` is the current token, reversed. -/
def splitWsAux : List Char → List Char → List (List Char)
  | [], acc => if acc.isEmpty then [] else [acc.reverse]
  | c :: t, acc =>
    if isPySpace c then
      if acc.isEmpty then splitWsAux t [] else acc.reverse :: splitWsAux t []
    else splitWsAux t (c :: acc)

/-- Python `str.split()` (no argument): splits on runs of whitespace,
producing no empty tokens. -/
def pySplitWsL (l : List Char) : List (List Char) := splitWsAux l []

def pySplitWs (s : String) : List String := (pySplitWsL s.data).map (fun l => ⟨l⟩)

/-- Substring test, i.e. Python's `needle in hay`. -/
def subList (needle : List Char) : List Char → Bool
  | [] => needle.isEmpty
  | c :: t => needle.isPrefixOf (c :: t) || subList needle t

def subS (hay pat : String) : Bool := subList pat.data hay.data

/-- Case-insensitive literal match at the start of `cs`; the pattern is given
in lowercase. -/
def ciPrefix : List Char → List Char → Bool
  | [], _ => true
  | _ :: _, [] => false
  | p :: ps, c :: cs => pyLowerChar c == p && ciPrefix ps cs

/-- `str.startswith('#')`. -/
def startsWithHash (s : String) : Bool :=
  match s.data with
  | '#' :: _ => true
  | _ => false

/-- Python `c in s` for a single character. -/
def hasChar (s : String) (c : Char) : Bool := s.data.contains c

/-! ## Hand-compiled regular expressions

Each `search…` function mirrors `re.search` of one compiled pattern of the
source: positions are tried left to right, and at each position the pattern is
matched with the backtracking order of the Python `re` engine. -/

def isDigitChar (c : Char) : Bool := '0' ≤ c && c ≤ '9'

def isDigitDot (c : Char) : Bool := isDigitChar c || c == '.'

def isAlnumChar (c : Char) : Bool :=
  isDigitChar c || ('A' ≤ c && c ≤ 'Z') || ('a' ≤ c && c ≤ 'z')

def isHexChar (c : Char) : Bool :=
  isDigitChar c || ('a' ≤ c && c ≤ 'f') || ('A' ≤ c && c ≤ 'F')

/-- Python `\w` for the character ranges occurring here. -/
def isWordChar (c : Char) : Bool :=
  isAlnumChar c || c == '_' || (0x410 ≤ c.toNat && c.toNat ≤ 0x44F) ||
    c.toNat == 0x401 || c.toNat == 0x451

/-- Backtracking over the length of the group `([\d.]+)`: the greedy run `d`
is retried from its full length downwards until the tail
`\s*#?([A-Za-z0-9]{2,})` matches what follows. -/
def acTry : Nat → List Char → List Char → Option (List Char × List Char)
  | 0, _, _ => none
  | k + 1, d, tail =>
    let afterG1 := d.drop (k + 1) ++ tail
    let s2 := afterG1.dropWhile isPySpace
    let s3 := match s2 with
      | '#' :: r => r
      | r => r
    let a := s3.takeWhile isAlnumChar
    if a.length ≥ 2 then some (d.take (k + 1), a) else acTry k d tail

/-- `re.search` of `Received:\s*([\d.]+)\s*#?([A-Za-z0-9]{2,})` (IGNORECASE),
returning the two groups. -/
def searchAC : List Char → Option (List Char × List Char)
  | [] => none
  | c :: cs =>
    let here :=
      if ciPrefix "received:".data (c :: cs) then
        let rest1 := ((c :: cs).drop 9).dropWhile isPySpace
        let d := rest1.takeWhile isDigitDot
        acTry d.length d (rest1.drop d.length)
      else none
    match here with
    | some r => some r
    | none => searchAC cs

def isFromTokChar (c : Char) : Bool := !isPySpace c && c != '(' && c != '|'

/-- `re.search` of `\bfrom\s+([^\s\(\|]+)` (IGNORECASE); `prev` is the
character before the current position, for the word boundary. -/
def searchFrom (prev : Option Char) : List Char → Option (List Char)
  | [] => none
  | c :: cs =>
    let boundary := match prev with
      | none => true
      | some p => !isWordChar p
    let here :=
      if boundary && ciPrefix "from".data (c :: cs) then
        let rest := (c :: cs).drop 4
        let ws := rest.takeWhile isPySpace
        if ws.isEmpty then none
        else
          let tok := (rest.drop ws.length).takeWhile isFromTokChar
          if tok.isEmpty then none else some tok
      else none
    match here with
    | some r => some r
    | none => searchFrom (some c) cs

/-- `re.search` of `<domain>(0x[a-fA-F0-9]{40})` (IGNORECASE) where `domain` is
`bscscan\.com/address/` or `etherscan\.io/address/`. -/
def searchEvmAddr (domain : List Char) : List Char → Option (List Char)
  | [] => none
  | c :: cs =>
    let here :=
      if ciPrefix domain (c :: cs) then
        let rest := (c :: cs).drop domain.length
        if ciPrefix "0x".data rest then
          let hx := (rest.drop 2).takeWhile isHexChar
          if hx.length ≥ 40 then some (rest.take 2 ++ hx.take 40) else none
        else none
      else none
    match here with
    | some r => some r
    | none => searchEvmAddr domain cs

/-- `re.search` of `tronscan\.org/#/address/([A-Za-z0-9]{20,})` (IGNORECASE). -/
def searchTronAddr : List Char → Option (List Char)
  | [] => none
  | c :: cs =>
    let pat := "tronscan.org/#/address/".data
    let here :=
      if ciPrefix pat (c :: cs) then
        let run := ((c :: cs).drop pat.length).takeWhile isAlnumChar
        if run.length ≥ 20 then some run else none
      else none
    match here with
    | some r => some r
    | none => searchTronAddr cs

/-- Word boundary after an alphanumeric match. -/
def boundaryAfter : List Char → Bool
  | [] => true
  | c :: _ => !isWordChar c

/-- `re.search` of `#(bnb|tron|eth)\b` (IGNORECASE), returning the lowercase
alternative that matched (the source only uses `m.group(1).lower()`). -/
def searchNetworkTag : List Char → Option String
  | [] => none
  | c :: cs =>
    let here :=
      if c == '#' then
        if ciPrefix "bnb".data cs && boundaryAfter (cs.drop 3) then some "bnb"
        else if ciPrefix "tron".data cs && boundaryAfter (cs.drop 4) then some "tron"
        else if ciPrefix "eth".data cs && boundaryAfter (cs.drop 3) then some "eth"
        else none
      else none
    match here with
    | some r => some r
    | none => searchNetworkTag cs

/-! ## Parsing helpers of `TransactionCalculator` -/

/-- One iteration of the loop body of `_extract_hashtag_from_text`, applied to
an already-stripped line; `none` means the Python loop continues. -/
def lineHashtag (line : String) : Option String :=
  let ll := pyLower line
  if subS ll "received:" || subS ll "переслано" || subS ll "forwarded" then none
  else if startsWithHash line then
    let line2 := if hasChar line '|' then pyStrip ((pySplit '|' line).headD "") else line
    let parts := pySplitWs line2
    match parts with
    | [] => none
    | p0 :: _ =>
      if startsWithHash p0 then
        let hashtag := joinSpace parts
        let hl := pyLower hashtag
        if hl = "#bnb" || hl = "#tron" || hl = "#eth" || hl = "#btc" || hl = "#sol" then
          none
        else if hasChar hashtag ' ' || hashtag.length > 5 then some hashtag
        else none
      else none
  else none

/-- `TransactionCalculator._extract_hashtag_from_text`. -/
def extractHashtagFromText (text : String) : Option String :=
  ((splitCharL '\n' (pyStripL text.data)).map (fun l => (⟨l⟩ : String))).findSome?
    (fun raw => lineHashtag (pyStrip raw))

/-- `TransactionCalculator._detect_network_from_hashtag`. -/
def detectNetworkFromHashtag (hashtag : String) : String :=
  let hl := pyLower hashtag
  if subS hl "trc20" || subS hl "tron" then "TRON"
  else if subS hl "bnb" then "BSC"
  else if subS hl "eth" || subS hl "ethereum" then "ETH"
  else if subS hl "btc" || subS hl "bitcoin" then "BTC"
  else if subS hl "sol" || subS hl "solana" then "SOL"
  else "UNKNOWN"

def bscPat : List Char := "bscscan.com/address/".data

def ethPat : List Char := "etherscan.io/address/".data

/-- `TransactionCalculator._detect_network_from_line`. -/
def detectNetworkFromLine (line : String) : String :=
  if (searchTronAddr line.data).isSome then "TRON"
  else if (searchEvmAddr bscPat line.data).isSome then "BSC"
  else if (searchEvmAddr ethPat line.data).isSome then "ETH"
  else
    match searchNetworkTag line.data with
    | some tag =>
      if tag = "tron" then "TRON"
      else if tag = "bnb" then "BSC"
      else if tag = "eth" then "ETH"
      else "UNKNOWN"
    | none => "UNKNOWN"

/-- `TransactionCalculator._extract_full_wallet_from_links`: Python returns a
pair `(network, full_wallet)` that is either both `None` or both present. -/
def extractFullWalletFromLinks (line : String) : Option (String × String) :=
  match searchTronAddr line.data with
  | some w => some ("TRON", ⟨w⟩)
  | none =>
    match searchEvmAddr bscPat line.data with
    | some w => some ("BSC", ⟨w⟩)
    | none =>
      match searchEvmAddr ethPat line.data with
      | some w => some ("ETH", ⟨w⟩)
      | none => none

/-- Python `float` on a string drawn from `[\d.]+`: it succeeds exactly when
there is at most one dot and at least one digit. -/
def parsePyFloat (g : List Char) : Option ℚ :=
  if g.all isDigitDot && g.count '.' ≤ 1 && g.any isDigitChar then
    let ip := g.takeWhile isDigitChar
    let fp := match g.dropWhile isDigitChar with
      | '.' :: r => r
      | _ => []
    let natOf : List Char → ℕ := fun l => l.foldl (fun n c => 10 * n + (c.toNat - 48)) 0
    some ((natOf ip : ℚ) + (natOf fp : ℚ) / (10 : ℚ) ^ fp.length)
  else none

/-- `TransactionCalculator._extract_amount_currency`: the regex groups, with
the amount parsed by `float` and the currency upper-cased; `(None, None)`
collapses to `none`. -/
def extractAmountCurrency (line : String) : Option (ℚ × String) :=
  match searchAC line.data with
  | none => none
  | some (g1, g2) =>
    match parsePyFloat g1 with
    | none => none
    | some amount => some (amount, ⟨g2.map pyUpperChar⟩)

/-- `TransactionCalculator._extract_wallet_short`. -/
def extractWalletShort (line : String) : Option String :=
  (searchFrom none line.data).map (fun t => pyStrip ⟨t⟩)

/-! ## String order used by Python `sorted` (code-point lexicographic) -/

def lexLe : List Char → List Char → Bool
  | [], _ => true
  | _ :: _, [] => false
  | a :: as, b :: bs =>
    if a.toNat < b.toNat then true
    else if a.toNat = b.toNat then lexLe as bs
    else false

/-- The order Python's `sorted` uses on strings. -/
def strle (a b : String) : Prop := lexLe a.data b.data = true

instance : DecidableRel strle := fun _ _ => inferInstanceAs (Decidable (_ = true))

theorem char_eq_of_toNat_eq {a b : Char} (h : a.toNat = b.toNat) : a = b := by
  apply Char.ext
  apply UInt32.eq_of_toBitVec_eq
  have ha : a.val.toBitVec.toNat = a.toNat := rfl
  have hb : b.val.toBitVec.toNat = b.toNat := rfl
  apply BitVec.eq_of_toNat_eq
  rw [ha, hb, h]

theorem lexLe_total : ∀ a b : List Char, lexLe a b = true ∨ lexLe b a = true := by
  intro a
  induction a with
  | nil => intro b; left; rfl
  | cons x xs ih =>
    intro b
    cases b with
    | nil => right; rfl
    | cons y ys =>
      rcases Nat.lt_trichotomy x.toNat y.toNat with h | h | h
      · left; simp [lexLe, h]
      · rcases ih ys with h2 | h2
        · left; simp [lexLe, h, h2]
        · right; simp [lexLe, h.symm, h2]
      · right; simp [lexLe, h]

theorem lexLe_trans : ∀ a b c : List Char,
    lexLe a b = true → lexLe b c = true → lexLe a c = true := by
  intro a
  induction a with
  | nil => intro b c _ _; rfl
  | cons x xs ih =>
    intro b c hab hbc
    cases b with
    | nil => simp [lexLe] at hab
    | cons y ys =>
      cases c with
      | nil => simp [lexLe] at hbc
      | cons z zs =>
        simp only [lexLe] at hab hbc ⊢
        rcases Nat.lt_trichotomy x.toNat y.toNat with h1 | h1 | h1
        · rcases Nat.lt_trichotomy y.toNat z.toNat with h2 | h2 | h2
          · have hxz : x.toNat < z.toNat := by omega
            simp [hxz]
          · have hxz : x.toNat < z.toNat := by omega
            simp [hxz]
          · have h3 : ¬ y.toNat < z.toNat := by omega
            have h4 : ¬ y.toNat = z.toNat := by omega
            simp [h3, h4] at hbc
        · rcases Nat.lt_trichotomy y.toNat z.toNat with h2 | h2 | h2
          · have hxz : x.toNat < z.toNat := by omega
            simp [hxz]
          · have hxz : x.toNat = z.toNat := by omega
            have hnlt : ¬ x.toNat < z.toNat := by omega
            have hnxy : ¬ x.toNat < y.toNat := by omega
            have hnyz : ¬ y.toNat < z.toNat := by omega
            simp [hnxy, h1] at hab
            simp [hnyz, h2] at hbc
            simp [hnlt, hxz]
            exact ih ys zs hab hbc
          · have h3 : ¬ y.toNat < z.toNat := by omega
            have h4 : ¬ y.toNat = z.toNat := by omega
            simp [h3, h4] at hbc
        · have h3 : ¬ x.toNat < y.toNat := by omega
          have h4 : ¬ x.toNat = y.toNat := by omega
          simp [h3, h4] at hab

theorem lexLe_antisymm : ∀ a b : List Char,
    lexLe a b = true → lexLe b a = true → a = b := by
  intro a
  induction a with
  | nil =>
    intro b _ hba
    cases b with
    | nil => rfl
    | cons y ys => simp [lexLe] at hba
  | cons x xs ih =>
    intro b hab hba
    cases b with
    | nil => simp [lexLe] at hab
    | cons y ys =>
      simp only [lexLe] at hab hba
      rcases Nat.lt_trichotomy x.toNat y.toNat with h1 | h1 | h1
      · have h2 : ¬ y.toNat < x.toNat := by omega
        have h3 : ¬ y.toNat = x.toNat := by omega
        simp [h2, h3] at hba
      · have hxy : x = y := char_eq_of_toNat_eq h1
        subst hxy
        have hn : ¬ x.toNat < x.toNat := by omega
        simp [hn] at hab hba
        exact congrArg (fun t => x :: t) (ih ys hab hba)
      · have h2 : ¬ x.toNat < y.toNat := by omega
        have h3 : ¬ x.toNat = y.toNat := by omega
        simp [h2, h3] at hab

instance : IsTotal String strle := ⟨fun a b => lexLe_total a.data b.data⟩

instance : IsTrans String strle := ⟨fun a b c => lexLe_trans a.data b.data c.data⟩

instance : IsAntisymm String strle :=
  ⟨fun a b h1 h2 => by
    cases a; cases b
    exact congrArg String.mk (lexLe_antisymm _ _ h1 h2)⟩

instance : IsRefl String strle :=
  ⟨fun a => by
    rcases lexLe_total a.data a.data with h | h <;> exact h⟩

/-- `sorted(...)` on a multiset of strings, via insertion sort (well defined
because sorting two permuted lists gives the same result). -/
def msort (m : Multiset String) : List String :=
  Quotient.liftOn m (fun l => List.insertionSort strle l)
    (fun a b h =>
      List.eq_of_perm_of_sorted
        ((List.perm_insertionSort strle a).trans (h.trans (List.perm_insertionSort strle b).symm))
        (List.sorted_insertionSort strle a) (List.sorted_insertionSort strle b))

/-- `sorted(keys)` of a Python dict / set abstracted as a `Finset`. -/
def sortFinset (s : Finset String) : List String := msort s.val

/-! ## The ledger state and the session driver -/

/-- The `PendingTx` dataclass of the source. -/
structure PendingTx where
  amount : ℚ
  currency : String
  network : String
  wallet_short : String
  wallet_full : Option String
  hashtag : Option String
deriving DecidableEq

/-- The mutable fields of `TransactionCalculator`:
`transactions` (a dict of dicts) is abstracted as its key set `labels`, its
per-label currency key sets `curs`, and the running totals `totals` (defaulting
to `0`, as `defaultdict(float)` does); `total_transactions` and the set
`wallets_seen` are as in the source.  The `rates` table is static and kept as a
separate definition. -/
structure CalcState where
  labels : Finset String
  curs : String → Finset String
  totals : String → String → ℚ
  total_transactions : ℕ
  wallets_seen : Finset String

/-- A freshly constructed `TransactionCalculator`. -/
def initState : CalcState where
  labels := ∅
  curs := fun _ => ∅
  totals := fun _ _ => 0
  total_transactions := 0
  wallets_seen := ∅

/-- The statement `self.transactions[key][cur] += amount` together with
`self.total_transactions += 1` (wallet bookkeeping is separate). -/
def ledgerAdd (s : CalcState) (key cur : String) (amount : ℚ) : CalcState where
  labels := insert key s.labels
  curs := fun l => if l = key then insert cur (s.curs l) else s.curs l
  totals := fun l c => if l = key ∧ c = cur then s.totals l c + amount else s.totals l c
  total_transactions := s.total_transactions + 1
  wallets_seen := s.wallets_seen

/-- The local state of the loop in `add_transactions`. -/
structure LoopSt where
  st : CalcState
  added : ℕ
  pending : Option PendingTx
  current_hashtag : Option String
  network_from_hashtag : Option String

/-- The inner function `finalize_pending` of `add_transactions`. -/
def finalizePending (ls : LoopSt) : LoopSt :=
  match ls.pending with
  | none => ls
  | some p =>
    let hashtag_key := match p.hashtag with
      | some h => if h = "" then "#" ++ p.network else h
      | none => "#" ++ p.network
    let st1 := ledgerAdd ls.st hashtag_key p.currency p.amount
    let wallet := match p.wallet_full with
      | some w => if w = "" then p.wallet_short else w
      | none => p.wallet_short
    let st2 := if wallet ≠ "" then
        { st1 with wallets_seen := insert wallet st1.wallets_seen }
      else st1
    { ls with st := st2, added := ls.added + 1, pending := none }

/-- Python `a or b` on optional strings (`None` and `""` are falsy). -/
def orStr (a : Option String) (b : Option String) : Option String :=
  match a with
  | some h => if h = "" then b else some h
  | none => b

/-- One iteration of the `for i, raw in enumerate(lines)` loop of
`add_transactions`; `gh` is the `global_hashtag` computed before the loop. -/
def processLine (gh : Option String) (ls : LoopSt) (raw : String) : LoopSt :=
  let line := pyStrip raw
  if line = "" then ls
  else if startsWithHash line && !hasChar line '|' then
    match extractHashtagFromText line with
    | some ph =>
      { ls with current_hashtag := some ph,
                network_from_hashtag := some (detectNetworkFromHashtag ph) }
    | none => ls
  else if subS (pyLower line) "received:" then
    let ls1 := finalizePending ls
    match extractAmountCurrency line with
    | none => ls1
    | some (amount, currency) =>
      match extractWalletShort line with
      | none => ls1
      | some ws =>
        if ws = "" then ls1
        else
          let link := extractFullWalletFromLinks line
          let hashtag_to_use := orStr ls1.current_hashtag gh
          let network :=
            match ls1.network_from_hashtag with
            | some n =>
              if n ≠ "" ∧ n ≠ "UNKNOWN" then n
              else match link with
                | some (nl, _) => nl
                | none => detectNetworkFromLine line
            | none =>
              match link with
              | some (nl, _) => nl
              | none => detectNetworkFromLine line
          match link with
          | some (_, wf) =>
            let hashtag_key := match hashtag_to_use with
              | some h => if h = "" then "#" ++ network else h
              | none => "#" ++ network
            let st1 := ledgerAdd ls1.st hashtag_key currency amount
            let st2 := { st1 with wallets_seen := insert wf st1.wallets_seen }
            { ls1 with st := st2, added := ls1.added + 1, pending := none }
          | none =>
            let p := PendingTx.mk amount currency network ws none hashtag_to_use
            { ls1 with pending := some p }
  else
    match ls.pending with
    | none => ls
    | some p =>
      match extractFullWalletFromLinks line with
      | some (nl, wf) =>
        let p2 := { p with wallet_full := some wf,
                           network := if p.network = "UNKNOWN" then nl else p.network }
        { ls with pending := some p2 }
      | none =>
        if p.network = "UNKNOWN" then
          { ls with pending := some { p with network := detectNetworkFromLine line } }
        else ls

/-- `TransactionCalculator.add_transactions`: returns the final calculator
state and the `added` count. -/
def addTransactions (s : CalcState) (text : String) : CalcState × ℕ :=
  let lines := (splitCharL '\n' (pyStripL text.data)).map (fun l => (⟨l⟩ : String))
  let gh := extractHashtagFromText text
  let nfh := match gh with
    | some h => if h = "" then none else some (detectNetworkFromHashtag h)
    | none => none
  let ls0 : LoopSt := ⟨s, 0, none, none, nfh⟩
  let ls1 := lines.foldl (processLine gh) ls0
  let ls2 := finalizePending ls1
  (ls2.st, ls2.added)

/-- `TransactionCalculator.clear_all`. -/
def clearAll (_ : CalcState) : CalcState := initState

/-- `TransactionCalculator.get_status`: `None` when `transactions` is empty,
otherwise the pair `(wallet_count, transaction_count)`. -/
def getStatus (s : CalcState) : Option (ℕ × ℕ) :=
  if s.labels = ∅ then none
  else some (s.wallets_seen.card, s.total_transactions)

/-! ## The report renderer -/

/-- The static `rates` table of the constructor. -/
def rates (cur : String) : Option ℚ :=
  if cur = "USDT" then some 1
  else if cur = "USDC" then some 1
  else if cur = "BNB" then some 886
  else if cur = "TRX" then some (12 / 100)
  else if cur = "ETH" then some 3500
  else if cur = "BTC" then some 68000
  else if cur = "SOL" then some 150
  else none

/-- Round to the nearest integer, ties to even — the rounding of Python's
`format(..., '.2f')`. -/
def roundHalfEven (q : ℚ) : ℤ :=
  let f := Int.fdiv q.num q.den
  let r := q - f
  if r < 1 / 2 then f
  else if 1 / 2 < r then f + 1
  else if f % 2 = 0 then f else f + 1

def natPad2 (n : ℕ) : String := if n < 10 then "0" ++ toString n else toString n

/-- Python `f"{x:.2f}"` on an exact rational value. -/
def fmt2 (q : ℚ) : String :=
  let n := roundHalfEven (q * 100)
  if n < 0 then
    "-" ++ toString ((-n).toNat / 100) ++ "." ++ natPad2 ((-n).toNat % 100)
  else toString (n.toNat / 100) ++ "." ++ natPad2 (n.toNat % 100)

/-- The `"─" * 40` separator line. -/
def sepLine : String := ⟨List.replicate 40 '─'⟩

/-- The body of the `for cur in sorted(currencies.keys())` loop: appends the
amount lines and accumulates the per-hashtag USD total. -/
def currencyStep (s : CalcState) (hashtag : String) (acc : List String × ℚ)
    (cur : String) : List String × ℚ :=
  let amt := s.totals hashtag cur
  let acc1 := acc.1 ++ [fmt2 amt ++ " " ++ cur]
  match rates cur with
  | some r => (acc1, acc.2 + amt * r)
  | none => (acc1, acc.2)

/-- The body of the `for hashtag in hashtags` loop. -/
def hashtagStep (s : CalcState) (acc : List String × ℚ) (hashtag : String) :
    List String × ℚ :=
  let inner := (sortFinset (s.curs hashtag)).foldl (currencyStep s hashtag)
    (acc.1 ++ [hashtag], 0)
  (inner.1, acc.2 + inner.2)

/-- `TransactionCalculator.get_total_report`. -/
def getTotalReport (s : CalcState) : String :=
  if s.labels = ∅ then "📭 Нет транзакций для отчёта."
  else
    let hashtags := sortFinset s.labels
    let body := hashtags.foldl (hashtagStep s) ([], 0)
    let stats := [sepLine, "📈 ОБЩАЯ СТАТИСТИКА:",
      "• Кошельков: " ++ toString s.wallets_seen.card,
      "• Транзакций: " ++ toString s.total_transactions,
      "• Общая сумма: $" ++ fmt2 body.2 ++ " USD"]
    "\n".intercalate (body.1 ++ stats)

/-! ## A parse-phase view of `add_transactions`

`add_transactions` interleaves parsing with ledger mutation, but never reads
the ledger while parsing.  `parseTx` runs the same loop while only emitting
the finalized transactions; the theorem `addTransactions_eq_parse` proves the
two views equal, which is what makes the ledger-level claims provable. -/

/-- One finalized transaction as it is applied to the ledger: the grouping
key, the currency, the amount, and the wallet inserted into `wallets_seen`
(if any). -/
structure FinTx where
  key : String
  currency : String
  amount : ℚ
  wallet : Option String
deriving DecidableEq

/-- Application of one finalized transaction to the calculator state — the
exact mutation block shared by `finalize_pending` and the direct-add branch. -/
def applyFin (s : CalcState) (t : FinTx) : CalcState :=
  let st1 := ledgerAdd s t.key t.currency t.amount
  match t.wallet with
  | some w => { st1 with wallets_seen := insert w st1.wallets_seen }
  | none => st1

/-- The loop state of the parse-phase view. -/
structure PLoop where
  acc : List FinTx
  pending : Option PendingTx
  current_hashtag : Option String
  network_from_hashtag : Option String

/-- `finalize_pending`, emitting instead of mutating. -/
def emitFinalize (pl : PLoop) : PLoop :=
  match pl.pending with
  | none => pl
  | some p =>
    let hashtag_key := match p.hashtag with
      | some h => if h = "" then "#" ++ p.network else h
      | none => "#" ++ p.network
    let wallet := match p.wallet_full with
      | some w => if w = "" then p.wallet_short else w
      | none => p.wallet_short
    let wtx := if wallet ≠ "" then some wallet else none
    { pl with acc := pl.acc ++ [FinTx.mk hashtag_key p.currency p.amount wtx],
              pending := none }

/-- One loop iteration of the parse-phase view, parallel to `processLine`. -/
def emitLine (gh : Option String) (pl : PLoop) (raw : String) : PLoop :=
  let line := pyStrip raw
  if line = "" then pl
  else if startsWithHash line && !hasChar line '|' then
    match extractHashtagFromText line with
    | some ph =>
      { pl with current_hashtag := some ph,
                network_from_hashtag := some (detectNetworkFromHashtag ph) }
    | none => pl
  else if subS (pyLower line) "received:" then
    let pl1 := emitFinalize pl
    match extractAmountCurrency line with
    | none => pl1
    | some (amount, currency) =>
      match extractWalletShort line with
      | none => pl1
      | some ws =>
        if ws = "" then pl1
        else
          let link := extractFullWalletFromLinks line
          let hashtag_to_use := orStr pl1.current_hashtag gh
          let network :=
            match pl1.network_from_hashtag with
            | some n =>
              if n ≠ "" ∧ n ≠ "UNKNOWN" then n
              else match link with
                | some (nl, _) => nl
                | none => detectNetworkFromLine line
            | none =>
              match link with
              | some (nl, _) => nl
              | none => detectNetworkFromLine line
          match link with
          | some (_, wf) =>
            let hashtag_key := match hashtag_to_use with
              | some h => if h = "" then "#" ++ network else h
              | none => "#" ++ network
            { pl1 with acc := pl1.acc ++ [FinTx.mk hashtag_key currency amount (some wf)],
                       pending := none }
          | none =>
            let p := PendingTx.mk amount currency network ws none hashtag_to_use
            { pl1 with pending := some p }
  else
    match pl.pending with
    | none => pl
    | some p =>
      match extractFullWalletFromLinks line with
      | some (nl, wf) =>
        let p2 := { p with wallet_full := some wf,
                           network := if p.network = "UNKNOWN" then nl else p.network }
        { pl with pending := some p2 }
      | none =>
        if p.network = "UNKNOWN" then
          { pl with pending := some { p with network := detectNetworkFromLine line } }
        else pl

/-- The transactions finalized by `add_transactions(text)`, in order. -/
def parseTx (text : String) : List FinTx :=
  let lines := (splitCharL '\n' (pyStripL text.data)).map (fun l => (⟨l⟩ : String))
  let gh := extractHashtagFromText text
  let nfh := match gh with
    | some h => if h = "" then none else some (detectNetworkFromHashtag h)
    | none => none
  let pl0 : PLoop := ⟨[], none, none, nfh⟩
  (emitFinalize (lines.foldl (emitLine gh) pl0)).acc

/-! ## Further definitions used by the claim statements -/

/-- The whitespace-collapsing step `' '.join(line.split())` the source applies
to a hashtag line. -/
def collapseWs (s : String) : String := joinSpace (pySplitWs s)

/-- The networks `_detect_network_from_*` can return. -/
def netNames : List String := ["TRON", "BSC", "ETH", "BTC", "SOL", "UNKNOWN"]

/-- The fallback grouping keys `f"#{network}"`. -/
def fallbackKeys : List String := netNames.map (fun n => "#" ++ n)

/-- C1's end-to-end input. -/
def c1Input : String :=
  "#oscar max bnb\nReceived: 19.99 #USDT ($19.99) from Binance\n#jack trc20\nReceived: 5.00 #TRX ($0.60) from TXabc123"

/-- C1's expected report. -/
def c1Report : String :=
  "#jack trc20\n5.00 TRX\n#oscar max bnb\n19.99 USDT\n" ++ sepLine ++
    "\n📈 ОБЩАЯ СТАТИСТИКА:\n• Кошельков: 2\n• Транзакций: 2\n• Общая сумма: $20.59 USD"

/-- A transaction line with no label marker anywhere (C2). -/
def c2Input : String := "Received: 5 USDT from abc"

/-- A label marker followed by a primary-pattern line with no `from` token and
no explorer URL (C3). -/
def c3Input : String := "#oscar max bnb\nReceived: 19.99 #USDT"

/-- Like `c3Input` but with a `from` token and still no explorer URL (C3). -/
def c3InputFrom : String := "#oscar max bnb\nReceived: 19.99 #USDT ($19.99) from Binance"

/-- A pending transaction, an intervening label marker, then an explorer URL
(C9). -/
def c9Input : String :=
  "#first label\nReceived: 5 USDT from abc\n#second label\nhttps://bscscan.com/address/0x0123456789abcdef0123456789abcdef01234567"

/-- A transaction line whose label marker only appears on a later line (C10). -/
def c10Input : String := "Received: 5 USDT from x\n#late label"

/-- Two texts with the same transactions in different line orders (C6). -/
def c6InputA : String :=
  "#alpha one\nReceived: 5 USDT from x\n#beta two\nReceived: 3 TRX from y"

def c6InputB : String :=
  "#beta two\nReceived: 3 TRX from y\n#alpha one\nReceived: 5 USDT from x"

/-! ### Binary64 accumulation (C6)

The source stores each `transactions[key][cur]` cell as a Python binary64
float and accumulates it with `+=`.  The following definitions model
IEEE-754 round-to-nearest-even for the non-negative normal range the bot's
amounts live in (values below `2^128`), enough to evaluate the accumulation
`0.0 + a₁ + a₂ + …` exactly. -/

/-- `⌊log₂ n⌋` computed with explicit fuel; exact for `n < 2^128`. -/
def log2Fuel : ℕ → ℕ → ℕ
  | 0, _ => 0
  | f + 1, n => if n ≥ 2 then log2Fuel f (n / 2) + 1 else 0

def natLog2 (n : ℕ) : ℕ := log2Fuel 128 n

/-- `2^e ≤ q`, for a positive rational `q`. -/
def qGePow2 (q : ℚ) (e : ℤ) : Bool :=
  if 0 ≤ e then Nat.ble (q.den * 2 ^ e.toNat) q.num.natAbs
  else Nat.ble q.den (q.num.natAbs * 2 ^ (-e).toNat)

/-- `⌊log₂ q⌋` for a positive rational `q` in the modelled range. -/
def floorLog2Q (q : ℚ) : ℤ :=
  let c : ℤ := (natLog2 q.num.natAbs : ℤ) - (natLog2 q.den : ℤ)
  if qGePow2 q c then c else c - 1

/-- Multiplication by an integer power of two. -/
def mulPow2 (q : ℚ) (e : ℤ) : ℚ :=
  if 0 ≤ e then q * (2 : ℚ) ^ e.toNat else q / (2 : ℚ) ^ (-e).toNat

/-- IEEE-754 binary64 rounding (round to nearest, ties to even) of a
non-negative rational in the normal range: the value is scaled so that its
significand lies in `[2^52, 2^53)` and the significand is rounded
half-to-even. -/
def roundB64 (q : ℚ) : ℚ :=
  if q = 0 then 0
  else
    let e := floorLog2Q q - 52
    mulPow2 ((roundHalfEven (mulPow2 q (-e)) : ℤ) : ℚ) e

/-- The running value of one `transactions[key][cur]` cell under Python
float semantics: `0.0`, then `+=` each parsed amount in line order. -/
def floatSum (amounts : List ℚ) : ℚ :=
  amounts.foldl (fun acc a => roundB64 (acc + a)) 0

/-- The contribution of one finalized transaction to the total of one
`(label, currency)` cell. -/
def contrib (t : FinTx) (l c : String) : ℚ :=
  if l = t.key ∧ c = t.currency then t.amount else 0

/-- The sum contributed to one cell by a list of finalized transactions. -/
def contribSum (ts : List FinTx) (l c : String) : ℚ :=
  (ts.map (fun t => contrib t l c)).sum

/-- Invariant of the parse loop on a text with no extractable hashtag:
no label is ever active and every emitted transaction is grouped under a
fallback key `"#" ++ network`. -/
def NoTagInv (pl : PLoop) : Prop :=
  pl.current_hashtag = none ∧ pl.network_from_hashtag = none ∧
    (∀ p, pl.pending = some p → p.hashtag = none ∧ p.network ∈ netNames) ∧
    (∀ t ∈ pl.acc, t.key ∈ fallbackKeys)

/-- Correspondence between the mutating loop state and the parse-phase loop
state: the ledger is the fold of the emitted transactions over the starting
state, `added` is their number, and the parser-local fields agree. -/
def LoopRel (s0 : CalcState) (ls : LoopSt) (pl : PLoop) : Prop :=
  ls.st = pl.acc.foldl applyFin s0 ∧ ls.added = pl.acc.length ∧
    ls.pending = pl.pending ∧ ls.current_hashtag = pl.current_hashtag ∧
    ls.network_from_hashtag = pl.network_from_hashtag

/-! ## Lemmas about stripping and splitting -/

theorem dropWhile_head_false (p : Char → Bool) (l : List Char) :
    l.dropWhile p = [] ∨ ∃ c t, l.dropWhile p = c :: t ∧ p c = false := by
  cases h : l.dropWhile p with
  | nil => exact Or.inl rfl
  | cons c t =>
    refine Or.inr ⟨c, t, rfl, ?_⟩
    have h2 := List.head?_dropWhile_not p l
    rw [h] at h2
    simpa using h2

theorem dropWhile_of_head_false {p : Char → Bool} {l : List Char}
    (h : ∀ c t, l = c :: t → p c = false) : l.dropWhile p = l := by
  cases l with
  | nil => rfl
  | cons c t => simp [List.dropWhile_cons, h c t rfl]

theorem dropWhile_idem (p : Char → Bool) (l : List Char) :
    (l.dropWhile p).dropWhile p = l.dropWhile p := by
  rcases dropWhile_head_false p l with h | ⟨c, t, h, hc⟩
  · rw [h]; rfl
  · rw [h, List.dropWhile_cons, hc]
    simp

theorem getLast?_dropWhile (p : Char → Bool) (l : List Char)
    (h : l.dropWhile p ≠ []) : (l.dropWhile p).getLast? = l.getLast? := by
  induction l with
  | nil => simp at h
  | cons c t ih =>
    by_cases hp : p c
    · rw [List.dropWhile_cons, if_pos hp] at h ⊢
      rw [ih h]
      cases ht : t with
      | nil => rw [ht] at h; simp at h
      | cons d u => simp
    · simp [List.dropWhile_cons, hp]

theorem pyStripL_sub {c : Char} {l : List Char} (h : c ∈ pyStripL l) : c ∈ l := by
  unfold pyStripL at h
  rw [List.mem_reverse] at h
  have h2 := (List.dropWhile_sublist isPySpace).subset h
  rw [List.mem_reverse] at h2
  exact (List.dropWhile_sublist isPySpace).subset h2

theorem pyStripL_idem (l : List Char) : pyStripL (pyStripL l) = pyStripL l := by
  unfold pyStripL
  have hB1 : (((l.dropWhile isPySpace).reverse.dropWhile isPySpace).reverse).dropWhile
      isPySpace = ((l.dropWhile isPySpace).reverse.dropWhile isPySpace).reverse := by
    apply dropWhile_of_head_false
    intro c t h
    have hhd : (((l.dropWhile isPySpace).reverse.dropWhile isPySpace).reverse).head? =
        some c := by rw [h]; rfl
    rw [List.head?_reverse] at hhd
    have hne : (l.dropWhile isPySpace).reverse.dropWhile isPySpace ≠ [] := by
      intro h0
      rw [h0] at hhd
      cases hhd
    rw [getLast?_dropWhile _ _ hne, List.getLast?_reverse] at hhd
    rcases dropWhile_head_false isPySpace l with h0 | ⟨c2, t2, h2, hc2⟩
    · rw [h0] at hhd; cases hhd
    · rw [h2] at hhd
      have hc : c2 = c := by simpa using hhd
      exact hc ▸ hc2
  rw [hB1, List.reverse_reverse, dropWhile_idem]

theorem pyStrip_idem (s : String) : pyStrip (pyStrip s) = pyStrip s :=
  congrArg String.mk (pyStripL_idem s.data)

theorem splitCharL_ne_nil (sep : Char) (l : List Char) : splitCharL sep l ≠ [] := by
  induction l with
  | nil => simp [splitCharL]
  | cons c t ih =>
    by_cases h : c = sep
    · simp [splitCharL, h]
    · simp only [splitCharL, if_neg h]
      cases hs : splitCharL sep t with
      | nil => simp
      | cons a b => simp

theorem splitCharL_no_sep (sep : Char) (l : List Char) :
    ∀ piece ∈ splitCharL sep l, sep ∉ piece := by
  induction l with
  | nil =>
    intro piece hp
    simp only [splitCharL, List.mem_singleton] at hp
    rw [hp]
    simp
  | cons c t ih =>
    intro piece hp
    by_cases h : c = sep
    · simp only [splitCharL, if_pos h, List.mem_cons] at hp
      rcases hp with h1 | h1
      · rw [h1]; simp
      · exact ih piece h1
    · simp only [splitCharL, if_neg h] at hp
      cases hs : splitCharL sep t with
      | nil => exact absurd hs (splitCharL_ne_nil sep t)
      | cons a b =>
        rw [hs] at hp
        rcases List.mem_cons.mp hp with h1 | h1
        · subst h1
          intro hmem
          rcases List.mem_cons.mp hmem with h2 | h2
          · exact h h2.symm
          · exact ih a (hs ▸ List.mem_cons_self a b) h2
        · exact ih piece (hs ▸ List.mem_cons_of_mem a h1)

theorem splitCharL_single {sep : Char} {l : List Char} (h : sep ∉ l) :
    splitCharL sep l = [l] := by
  induction l with
  | nil => rfl
  | cons c t ih =>
    have hc : ¬ c = sep := by
      intro e
      exact h (e ▸ List.mem_cons_self c t)
    have ht : sep ∉ t := fun m => h (List.mem_cons_of_mem c m)
    simp only [splitCharL, if_neg hc, ih ht]

/-- On a single already-stripped line without `'\n'`,
`_extract_hashtag_from_text` is just its loop body. -/
theorem extractHashtagFromText_single {line : String}
    (hnl : ('\n' : Char) ∉ line.data) (hst : pyStrip line = line) :
    extractHashtagFromText line = lineHashtag line := by
  unfold extractHashtagFromText
  have h1 : pyStripL line.data = line.data := congrArg String.data hst
  rw [h1, splitCharL_single hnl]
  simp only [List.map_cons, List.map_nil, List.findSome?]
  rw [hst]
  cases lineHashtag line <;> rfl

/-- Every line the `add_transactions` loop sees, once stripped, contains no
newline and is already stripped. -/
theorem loopLine_props (text : String) {raw : String}
    (h : raw ∈ (splitCharL '\n' (pyStripL text.data)).map (fun l => (⟨l⟩ : String))) :
    ('\n' : Char) ∉ (pyStrip raw).data ∧ pyStrip (pyStrip raw) = pyStrip raw := by
  refine ⟨?_, pyStrip_idem raw⟩
  rcases List.mem_map.mp h with ⟨piece, hp, he⟩
  intro hmem
  have hpiece : ('\n' : Char) ∈ piece := by
    subst he
    exact pyStripL_sub hmem
  exact splitCharL_no_sep '\n' (pyStripL text.data) piece hp hpiece

/-! ## `add_transactions` equals its parse-phase view -/

theorem finalize_rel {s0 : CalcState} {ls : LoopSt} {pl : PLoop}
    (h : LoopRel s0 ls pl) : LoopRel s0 (finalizePending ls) (emitFinalize pl) := by
  obtain ⟨h1, h2, h3, h4, h5⟩ := h
  unfold finalizePending emitFinalize
  rw [h3]
  cases hp : pl.pending with
  | none => exact ⟨h1, h2, h3, h4, h5⟩
  | some p =>
    refine ⟨?_, ?_, by simp [h3], by simp [h4], by simp [h5]⟩
    · simp only [List.foldl_append, List.foldl_cons, List.foldl_nil, ← h1]
      simp only [applyFin, ledgerAdd]
      by_cases hw : (match p.wallet_full with
        | some w => if w = "" then p.wallet_short else w
        | none => p.wallet_short) = ""
      · simp [hw]
      · simp [hw]
    · simp [h2]

theorem processLine_rel (gh : Option String) (raw : String) {s0 : CalcState}
    {ls : LoopSt} {pl : PLoop} (h : LoopRel s0 ls pl) :
    LoopRel s0 (processLine gh ls raw) (emitLine gh pl raw) := by
  obtain ⟨h1, h2, h3, h4, h5⟩ := h
  have hfin : LoopRel s0 (finalizePending ls) (emitFinalize pl) :=
    finalize_rel ⟨h1, h2, h3, h4, h5⟩
  obtain ⟨g1, g2, g3, g4, g5⟩ := hfin
  simp only [processLine, emitLine]
  by_cases he : pyStrip raw = ""
  · simp only [he, if_pos rfl]
    exact ⟨h1, h2, h3, h4, h5⟩
  by_cases hlab : (startsWithHash (pyStrip raw) && !hasChar (pyStrip raw) '|') = true
  · simp only [if_neg he, hlab, if_pos rfl]
    cases hx : extractHashtagFromText (pyStrip raw) with
    | none => exact ⟨h1, h2, h3, h4, h5⟩
    | some ph => exact ⟨h1, h2, h3, by simp, by simp⟩
  by_cases hrecv : subS (pyLower (pyStrip raw)) "received:" = true
  · simp only [if_neg he, hlab, Bool.false_eq_true, if_false, hrecv, if_pos rfl]
    cases hac : extractAmountCurrency (pyStrip raw) with
    | none => exact ⟨g1, g2, g3, g4, g5⟩
    | some ac =>
      obtain ⟨amount, currency⟩ := ac
      cases hws : extractWalletShort (pyStrip raw) with
      | none => exact ⟨g1, g2, g3, g4, g5⟩
      | some ws =>
        by_cases hwse : ws = ""
        · simp only [hwse, if_pos rfl]
          exact ⟨g1, g2, g3, g4, g5⟩
        simp only [if_neg hwse, g4, g5]
        cases hlink : extractFullWalletFromLinks (pyStrip raw) with
        | some nlwf =>
          obtain ⟨nl, wf⟩ := nlwf
          refine ⟨?_, ?_, by simp, by simp [g4], by simp [g5]⟩
          · simp only [List.foldl_append, List.foldl_cons, List.foldl_nil, g1]
            simp [applyFin, ledgerAdd]
          · simp [g2]
        | none => exact ⟨g1, g2, by simp [g3], by simp [g4], by simp [g5]⟩
  · simp only [if_neg he, hlab, Bool.false_eq_true, if_false, hrecv, h3]
    cases hp : pl.pending with
    | none => exact ⟨h1, h2, h3, h4, h5⟩
    | some p =>
      cases hlink : extractFullWalletFromLinks (pyStrip raw) with
      | some nlwf =>
        obtain ⟨nl, wf⟩ := nlwf
        exact ⟨h1, h2, by simp [h3], by simp [h4], by simp [h5]⟩
      | none =>
        by_cases hup : p.network = "UNKNOWN"
        · simp only [hup, if_pos rfl]
          exact ⟨h1, h2, by simp [h3], by simp [h4], by simp [h5]⟩
        · simp only [if_neg hup]
          exact ⟨h1, h2, h3, h4, h5⟩

theorem foldl_rel (gh : Option String) (lines : List String) {s0 : CalcState}
    {ls : LoopSt} {pl : PLoop} (h : LoopRel s0 ls pl) :
    LoopRel s0 (lines.foldl (processLine gh) ls) (lines.foldl (emitLine gh) pl) := by
  induction lines generalizing ls pl with
  | nil => exact h
  | cons x xs ih => exact ih (processLine_rel gh x h)

/-- `add_transactions` is the fold of its finalized transactions over the
starting state, and `added` is their number. -/
theorem addTransactions_eq_parse (s : CalcState) (text : String) :
    addTransactions s text = ((parseTx text).foldl applyFin s, (parseTx text).length) := by
  unfold addTransactions parseTx
  have h0 : LoopRel s
      (LoopSt.mk s 0 none none (match extractHashtagFromText text with
        | some h => if h = "" then none else some (detectNetworkFromHashtag h)
        | none => none))
      (PLoop.mk [] none none (match extractHashtagFromText text with
        | some h => if h = "" then none else some (detectNetworkFromHashtag h)
        | none => none)) :=
    ⟨rfl, rfl, rfl, rfl, rfl⟩
  have hf := finalize_rel (foldl_rel (extractHashtagFromText text)
    ((splitCharL '\n' (pyStripL text.data)).map (fun l => (⟨l⟩ : String))) h0)
  obtain ⟨k1, k2, _, _, _⟩ := hf
  simp only []
  rw [k1, k2]

/-! ## Ledger-level lemmas -/

theorem applyFin_totals (s : CalcState) (t : FinTx) (l c : String) :
    (applyFin s t).totals l c = s.totals l c + contrib t l c := by
  unfold applyFin ledgerAdd contrib
  cases t.wallet <;> (dsimp only; split <;> simp)

theorem foldl_totals (ts : List FinTx) (s : CalcState) (l c : String) :
    (ts.foldl applyFin s).totals l c = s.totals l c + contribSum ts l c := by
  induction ts generalizing s with
  | nil => simp [contribSum]
  | cons t ts ih =>
    rw [List.foldl_cons, ih, applyFin_totals]
    simp [contribSum]
    ring

theorem foldl_labels_sub (ts : List FinTx) (s : CalcState) :
    ∀ l ∈ (ts.foldl applyFin s).labels, l ∈ s.labels ∨ ∃ t ∈ ts, t.key = l := by
  induction ts generalizing s with
  | nil => intro l hl; exact Or.inl hl
  | cons t ts ih =>
    intro l hl
    rcases ih (applyFin s t) l hl with h | ⟨t2, ht2, he⟩
    · have : l ∈ insert t.key s.labels := by
        unfold applyFin ledgerAdd at h
        cases hw : t.wallet <;> rw [hw] at h <;> exact h
      rcases Finset.mem_insert.mp this with h2 | h2
      · exact Or.inr ⟨t, List.mem_cons_self t ts, h2.symm⟩
      · exact Or.inl h2
    · exact Or.inr ⟨t2, List.mem_cons_of_mem t ht2, he⟩

theorem calcState_ext {a b : CalcState} (h1 : a.labels = b.labels)
    (h2 : a.curs = b.curs) (h3 : a.totals = b.totals)
    (h4 : a.total_transactions = b.total_transactions)
    (h5 : a.wallets_seen = b.wallets_seen) : a = b := by
  cases a; cases b; simp_all

theorem applyFin_comm (s : CalcState) (a b : FinTx) :
    applyFin (applyFin s a) b = applyFin (applyFin s b) a := by
  unfold applyFin ledgerAdd
  cases ha : a.wallet <;> cases hb : b.wallet <;>
    · dsimp only
      apply calcState_ext
      · exact Finset.Insert.comm _ _ _
      · funext l
        by_cases h1 : l = a.key <;> by_cases h2 : l = b.key <;>
          simp [h1, h2] <;> split_ifs <;>
          first
          | rfl
          | exact Finset.Insert.comm _ _ _
      · funext l c
        by_cases h1 : l = a.key ∧ c = a.currency <;>
          by_cases h2 : l = b.key ∧ c = b.currency <;>
          simp [h1, h2] <;> split_ifs <;> ring
      · rfl
      · first
        | rfl
        | exact Finset.Insert.comm _ _ _

theorem foldl_perm_of_comm {α β : Type} (f : β → α → β)
    (hc : ∀ s a b, f (f s a) b = f (f s b) a) {l₁ l₂ : List α} (h : l₁.Perm l₂) :
    ∀ s, l₁.foldl f s = l₂.foldl f s := by
  induction h with
  | nil => intro s; rfl
  | cons x _ ih => intro s; simp only [List.foldl_cons]; exact ih (f s x)
  | swap x y l => intro s; simp only [List.foldl_cons, hc]
  | trans _ _ ih₁ ih₂ => intro s; rw [ih₁ s, ih₂ s]

/-! ## Network-name membership -/

theorem detectNetworkFromLine_mem (line : String) :
    detectNetworkFromLine line ∈ netNames := by
  unfold detectNetworkFromLine netNames
  split_ifs
  · simp
  · simp
  · simp
  · cases searchNetworkTag line.data with
    | none => simp
    | some tag =>
      dsimp only
      split_ifs <;> simp

theorem links_net_mem {line : String} {nl wf : String}
    (h : extractFullWalletFromLinks line = some (nl, wf)) : nl ∈ netNames := by
  unfold extractFullWalletFromLinks at h
  rcases h1 : searchTronAddr line.data with _ | w1 <;> rw [h1] at h
  · rcases h2 : searchEvmAddr bscPat line.data with _ | w2 <;> rw [h2] at h
    · rcases h3 : searchEvmAddr ethPat line.data with _ | w3 <;> rw [h3] at h
      · cases h
      · cases h; simp [netNames]
    · cases h; simp [netNames]
  · cases h; simp [netNames]

/-! ## The no-hashtag invariant (C2) -/

theorem emitFinalize_noTag {pl : PLoop} (h : NoTagInv pl) : NoTagInv (emitFinalize pl) := by
  obtain ⟨h1, h2, h3, h4⟩ := h
  unfold emitFinalize
  cases hp : pl.pending with
  | none => exact ⟨h1, h2, h3, h4⟩
  | some p =>
    obtain ⟨hh, hn⟩ := h3 p hp
    refine ⟨by simp [h1], by simp [h2], by simp, ?_⟩
    intro t ht
    simp only [List.mem_append, List.mem_singleton] at ht
    rcases ht with ht | ht
    · exact h4 t ht
    · subst ht
      simp only [hh, fallbackKeys]
      exact List.mem_map.mpr ⟨p.network, hn, rfl⟩

theorem emitLine_noTag {gh : Option String} {pl : PLoop} {raw : String}
    (hgh : gh = none) (hno : extractHashtagFromText (pyStrip raw) = none)
    (h : NoTagInv pl) : NoTagInv (emitLine gh pl raw) := by
  obtain ⟨h1, h2, h3, h4⟩ := h
  have hfin := emitFinalize_noTag ⟨h1, h2, h3, h4⟩
  obtain ⟨f1, f2, f3, f4⟩ := hfin
  simp only [emitLine]
  by_cases he : pyStrip raw = ""
  · simp only [he, if_pos rfl]
    exact ⟨h1, h2, h3, h4⟩
  by_cases hlab : (startsWithHash (pyStrip raw) && !hasChar (pyStrip raw) '|') = true
  · simp only [if_neg he, hlab, if_pos rfl, hno]
    exact ⟨h1, h2, h3, h4⟩
  by_cases hrecv : subS (pyLower (pyStrip raw)) "received:" = true
  · simp only [if_neg he, hlab, Bool.false_eq_true, if_false, hrecv, if_pos rfl]
    cases hac : extractAmountCurrency (pyStrip raw) with
    | none => exact ⟨f1, f2, f3, f4⟩
    | some ac =>
      obtain ⟨amount, currency⟩ := ac
      cases hws : extractWalletShort (pyStrip raw) with
      | none => exact ⟨f1, f2, f3, f4⟩
      | some ws =>
        by_cases hwse : ws = ""
        · simp only [hwse, if_pos rfl]
          exact ⟨f1, f2, f3, f4⟩
        simp only [if_neg hwse, f1, f2, hgh]
        cases hlink : extractFullWalletFromLinks (pyStrip raw) with
        | some nlwf =>
          obtain ⟨nl, wf⟩ := nlwf
          refine ⟨by simp [f1], by simp [f2], by simp, ?_⟩
          intro t ht
          simp at ht
          rcases ht with ht | ht
          · exact f4 t ht
          · subst ht
            simp only [orStr, fallbackKeys]
            exact List.mem_map.mpr ⟨nl, links_net_mem hlink, rfl⟩
        | none =>
          refine ⟨by simp [f1], by simp [f2], ?_, by simpa using f4⟩
          intro p hp
          simp [orStr] at hp
          rw [← hp]
          exact ⟨rfl, detectNetworkFromLine_mem _⟩
  · simp only [if_neg he, hlab, Bool.false_eq_true, if_false, hrecv]
    cases hp : pl.pending with
    | none => exact ⟨h1, h2, h3, h4⟩
    | some p =>
      obtain ⟨hh, hn⟩ := h3 p hp
      cases hlink : extractFullWalletFromLinks (pyStrip raw) with
      | some nlwf =>
        obtain ⟨nl, wf⟩ := nlwf
        refine ⟨h1, h2, ?_, h4⟩
        intro q hq
        simp only [Option.some.injEq] at hq
        rw [← hq]
        refine ⟨hh, ?_⟩
        by_cases hu : p.network = "UNKNOWN"
        · simp only [hu, if_pos rfl]
          exact links_net_mem hlink
        · simp only [if_neg hu]
          exact hn
      | none =>
        by_cases hu : p.network = "UNKNOWN"
        · simp only [hu, if_pos rfl]
          refine ⟨h1, h2, ?_, h4⟩
          intro q hq
          have hq2 : some (PendingTx.mk p.amount p.currency
              (detectNetworkFromLine (pyStrip raw)) p.wallet_short p.wallet_full
              p.hashtag) = some q := hq
          injection hq2 with hq3
          rw [← hq3]
          exact ⟨hh, detectNetworkFromLine_mem _⟩
        · simp only [if_neg hu]
          exact ⟨h1, h2, h3, h4⟩

theorem foldl_noTag {gh : Option String} (hgh : gh = none) (lines : List String)
    (hno : ∀ raw ∈ lines, extractHashtagFromText (pyStrip raw) = none)
    {pl : PLoop} (h : NoTagInv pl) : NoTagInv (lines.foldl (emitLine gh) pl) := by
  induction lines generalizing pl with
  | nil => exact h
  | cons x xs ih =>
    exact ih (fun raw hr => hno raw (List.mem_cons_of_mem x hr))
      (emitLine_noTag hgh (hno x (List.mem_cons_self x xs)) h)

/-- On a text with no extractable hashtag, every finalized transaction is
grouped under a fallback key `"#" ++ network`. -/
theorem parseTx_keys_fallback {text : String}
    (hg : extractHashtagFromText text = none) :
    ∀ t ∈ parseTx text, t.key ∈ fallbackKeys := by
  have hlines : ∀ raw ∈ (splitCharL '\n' (pyStripL text.data)).map
      (fun l => (⟨l⟩ : String)), extractHashtagFromText (pyStrip raw) = none := by
    intro raw hr
    obtain ⟨hnl, hst⟩ := loopLine_props text hr
    rw [extractHashtagFromText_single hnl hst]
    unfold extractHashtagFromText at hg
    have := List.findSome?_eq_none_iff.mp hg raw hr
    exact this
  unfold parseTx
  rw [hg]
  have h0 : NoTagInv (PLoop.mk [] none none none) := by
    refine ⟨rfl, rfl, ?_, ?_⟩
    · intro p hp
      cases hp
    · intro t ht
      cases ht
  have hf := emitFinalize_noTag (foldl_noTag rfl _ hlines h0)
  exact hf.2.2.2

/-! ## Branch behaviour lemmas (C3, C5, C9) -/

/-- A line without the substring `received:` leaves the ledger, the count and
an empty pending slot untouched. -/
theorem processLine_no_received {gh : Option String} {ls : LoopSt} {raw : String}
    (hnr : subS (pyLower (pyStrip raw)) "received:" = false)
    (hp : ls.pending = none) :
    (processLine gh ls raw).st = ls.st ∧ (processLine gh ls raw).added = ls.added ∧
      (processLine gh ls raw).pending = none := by
  simp only [processLine]
  by_cases he : pyStrip raw = ""
  · simp [he, hp]
  by_cases hlab : (startsWithHash (pyStrip raw) && !hasChar (pyStrip raw) '|') = true
  · simp only [if_neg he, hlab, if_pos rfl]
    cases extractHashtagFromText (pyStrip raw) <;> simp [hp]
  · simp [if_neg he, hlab, hnr, hp]

/-- A `received:` line on which `_extract_wallet_short` finds nothing only
finalizes the previous pending transaction: the line itself is dropped. -/
theorem received_no_from {gh : Option String} {ls : LoopSt} {raw : String}
    (he : ¬ pyStrip raw = "")
    (hlab : (startsWithHash (pyStrip raw) && !hasChar (pyStrip raw) '|') = false)
    (hrecv : subS (pyLower (pyStrip raw)) "received:" = true)
    (hws : extractWalletShort (pyStrip raw) = none) :
    processLine gh ls raw = finalizePending ls := by
  simp only [processLine, if_neg he, hlab, Bool.false_eq_true, if_false, hrecv, if_pos rfl]
  cases extractAmountCurrency (pyStrip raw) with
  | none => rfl
  | some ac =>
    obtain ⟨am, cur⟩ := ac
    simp [hws]

/-- A label-marker line never finalizes the pending transaction and never
touches the ledger or the count. -/
theorem labelLine_state {gh : Option String} {ls : LoopSt} {raw : String}
    (he : ¬ pyStrip raw = "")
    (hlab : (startsWithHash (pyStrip raw) && !hasChar (pyStrip raw) '|') = true) :
    (processLine gh ls raw).pending = ls.pending ∧
      (processLine gh ls raw).added = ls.added ∧
      (processLine gh ls raw).st = ls.st := by
  simp only [processLine, if_neg he, hlab, if_pos rfl]
  cases extractHashtagFromText (pyStrip raw) <;> simp

/-! ## Whitespace collapsing (C4) -/

theorem splitWsAux_props (l : List Char) :
    ∀ acc, (∀ c ∈ acc, isPySpace c = false) →
      ∀ t ∈ splitWsAux l acc, t ≠ [] ∧ ∀ c ∈ t, isPySpace c = false := by
  induction l with
  | nil =>
    intro acc hacc t ht
    unfold splitWsAux at ht
    by_cases ha : acc.isEmpty
    · simp [ha] at ht
    · simp only [ha, Bool.false_eq_true, if_false, List.mem_singleton] at ht
      subst ht
      constructor
      · simpa using fun h => ha (by simp [h, List.isEmpty_iff])
      · intro c hc
        exact hacc c (List.mem_reverse.mp hc)
  | cons x xs ih =>
    intro acc hacc t ht
    unfold splitWsAux at ht
    by_cases hx : isPySpace x
    · rw [if_pos hx] at ht
      by_cases ha : acc.isEmpty
      · rw [if_pos ha] at ht
        exact ih [] (by simp) t ht
      · rw [if_neg ha] at ht
        rcases List.mem_cons.mp ht with h | h
        · subst h
          constructor
          · simpa using fun h => ha (by simp [h, List.isEmpty_iff])
          · intro c hc
            exact hacc c (List.mem_reverse.mp hc)
        · exact ih [] (by simp) t h
    · rw [if_neg hx] at ht
      refine ih (x :: acc) ?_ t ht
      intro c hc
      rcases List.mem_cons.mp hc with h | h
      · subst h
        simpa using hx
      · exact hacc c h

theorem splitWsAux_cons_false {c : Char} (hc : isPySpace c = false)
    (t acc : List Char) : splitWsAux (c :: t) acc = splitWsAux t (c :: acc) := by
  conv_lhs => unfold splitWsAux
  rw [if_neg (by simp [hc])]

theorem splitWsAux_cons_true {c : Char} (hc : isPySpace c = true)
    (t acc : List Char) : splitWsAux (c :: t) acc =
      if acc.isEmpty then splitWsAux t [] else acc.reverse :: splitWsAux t [] := by
  conv_lhs => unfold splitWsAux
  rw [if_pos (by simp [hc])]

theorem splitWsAux_token (tok : List Char) (h : ∀ c ∈ tok, isPySpace c = false) :
    ∀ l acc, splitWsAux (tok ++ l) acc = splitWsAux l (tok.reverse ++ acc) := by
  induction tok with
  | nil => intro l acc; simp
  | cons c ts ih =>
    intro l acc
    have hc : isPySpace c = false := h c (List.mem_cons_self c ts)
    have hts : ∀ x ∈ ts, isPySpace x = false :=
      fun x hx => h x (List.mem_cons_of_mem c hx)
    rw [List.cons_append, splitWsAux_cons_false hc, ih hts l (c :: acc)]
    congr 1
    simp

theorem pySplitWsL_join (toks : List (List Char))
    (hne : ∀ t ∈ toks, t ≠ [])
    (hsp : ∀ t ∈ toks, ∀ c ∈ t, isPySpace c = false) :
    pySplitWsL ((joinSpace (toks.map (fun t => (⟨t⟩ : String)))).data) = toks := by
  induction toks with
  | nil => rfl
  | cons t rest ih =>
    have ht : t ≠ [] := hne t (List.mem_cons_self t rest)
    have hts : ∀ c ∈ t, isPySpace c = false := hsp t (List.mem_cons_self t rest)
    cases rest with
    | nil =>
      show pySplitWsL t = [t]
      unfold pySplitWsL
      have he := splitWsAux_token t hts [] []
      rw [List.append_nil] at he
      rw [he]
      conv_lhs => unfold splitWsAux
      rw [List.append_nil, if_neg (by simpa [List.isEmpty_iff] using ht)]
      rw [List.reverse_reverse]
    | cons t2 r2 =>
      have hne2 : ∀ x ∈ t2 :: r2, x ≠ [] := fun x hx => hne x (List.mem_cons_of_mem t hx)
      have hsp2 : ∀ x ∈ t2 :: r2, ∀ c ∈ x, isPySpace c = false :=
        fun x hx => hsp x (List.mem_cons_of_mem t hx)
      have hdata : (joinSpace ((t :: t2 :: r2).map (fun x => (⟨x⟩ : String)))).data =
          t ++ ' ' :: (joinSpace ((t2 :: r2).map (fun x => (⟨x⟩ : String)))).data := by
        show ((⟨t⟩ : String) ++ " " ++ joinSpace _).data = _
        rw [String.data_append, String.data_append]
        simp [String.data]
      unfold pySplitWsL
      rw [hdata, splitWsAux_token t hts _ []]
      rw [splitWsAux_cons_true (show isPySpace ' ' = true from rfl)]
      rw [if_neg (by simpa [List.isEmpty_iff] using ht), List.append_nil,
        List.reverse_reverse]
      exact congrArg (t :: ·) (ih hne2 hsp2)

/-- The whitespace collapsing `' '.join(line.split())` is idempotent. -/
theorem collapseWs_idem (s : String) : collapseWs (collapseWs s) = collapseWs s := by
  unfold collapseWs pySplitWs
  congr 1
  exact congrArg (List.map _) (pySplitWsL_join (pySplitWsL s.data)
    (fun t ht => (splitWsAux_props s.data [] (by simp) t ht).1)
    (fun t ht => (splitWsAux_props s.data [] (by simp) t ht).2))

/-! ## `add_transactions` on text without `received:` (C5) -/

theorem finalizePending_none {ls : LoopSt} (h : ls.pending = none) :
    finalizePending ls = ls := by
  unfold finalizePending
  rw [h]

theorem foldl_no_received (gh : Option String) (lines : List String)
    (h : ∀ raw ∈ lines, subS (pyLower (pyStrip raw)) "received:" = false) :
    ∀ ls : LoopSt, ls.pending = none →
      (lines.foldl (processLine gh) ls).st = ls.st ∧
        (lines.foldl (processLine gh) ls).added = ls.added ∧
        (lines.foldl (processLine gh) ls).pending = none := by
  induction lines with
  | nil => exact fun ls hp => ⟨rfl, rfl, hp⟩
  | cons x xs ih =>
    intro ls hp
    obtain ⟨a1, a2, a3⟩ := processLine_no_received (h x (List.mem_cons_self x xs)) hp
    obtain ⟨b1, b2, b3⟩ :=
      ih (fun raw hr => h raw (List.mem_cons_of_mem x hr)) (processLine gh ls x) a3
    exact ⟨b1.trans a1, b2.trans a2, b3⟩

theorem addTransactions_no_received (s : CalcState) (text : String)
    (h : ∀ raw ∈ (splitCharL '\n' (pyStripL text.data)).map (fun l => (⟨l⟩ : String)),
      subS (pyLower (pyStrip raw)) "received:" = false) :
    addTransactions s text = (s, 0) := by
  unfold addTransactions
  dsimp only
  obtain ⟨b1, b2, b3⟩ := foldl_no_received (extractHashtagFromText text) _ h
    (LoopSt.mk s 0 none none (match extractHashtagFromText text with
      | some hh => if hh = "" then none else some (detectNetworkFromHashtag hh)
      | none => none)) rfl
  rw [finalizePending_none b3, b1, b2]

/-! ## The claims -/

/-- C1: on the four-line end-to-end input, a fresh engine returns `added = 2`,
`get_status` reports the pair `(2, 2)` (two wallets — which here also equals
the number of labels — and two transactions), and the report lists the
`#jack trc20` block before the `#oscar max bnb` block with per-currency totals
`5.00 TRX` and `19.99 USDT` and the combined USD total `$20.59`. -/
theorem claim_c1_end_to_end :
    (addTransactions initState c1Input).2 = 2 ∧
      getStatus (addTransactions initState c1Input).1 = some (2, 2) ∧
      (addTransactions initState c1Input).1.labels.card = 2 ∧
      (addTransactions initState c1Input).1.total_transactions = 2 ∧
      (addTransactions initState c1Input).1.totals "#jack trc20" "TRX" = 5 ∧
      (addTransactions initState c1Input).1.totals "#oscar max bnb" "USDT" = 1999 / 100 ∧
      getTotalReport (addTransactions initState c1Input).1 = c1Report :=
  ⟨by decide, by decide, by decide, by decide, by decide, by decide, by decide⟩

/-- C2, counterexample: the transaction line `"Received: 5 USDT from abc"`
with no label marker anywhere is NOT discarded — it is counted
(`added = 1`) and recorded in the ledger under the fallback key
`"#UNKNOWN"`. -/
theorem claim_c2_counterexample :
    (addTransactions initState c2Input).2 = 1 ∧
      (addTransactions initState c2Input).1.totals "#UNKNOWN" "USDT" = 5 ∧
      "#UNKNOWN" ∈ (addTransactions initState c2Input).1.labels :=
  ⟨by decide, by decide, by decide⟩

/-- C2, amended: a transaction line with no label marker anywhere is still
recorded and counted when it parses; it is grouped under the fallback key
`"#" ++ network` (one of `#TRON`, `#BSC`, `#ETH`, `#BTC`, `#SOL`,
`#UNKNOWN`). -/
theorem claim_c2_amended :
    (∀ text : String, extractHashtagFromText text = none →
      ∀ l ∈ (addTransactions initState text).1.labels, l ∈ fallbackKeys) ∧
      (addTransactions initState c2Input).2 = 1 ∧
      (addTransactions initState c2Input).1.totals "#UNKNOWN" "USDT" = 5 := by
  refine ⟨?_, by decide, by decide⟩
  intro text hg l hl
  rw [addTransactions_eq_parse initState text] at hl
  rcases foldl_labels_sub (parseTx text) initState l hl with h | ⟨t, ht, he⟩
  · cases h
  · exact he ▸ parseTx_keys_fallback hg t ht

/-- C2, witness for the amended theorem at the concrete input. -/
theorem claim_c2_witness :
    ("#UNKNOWN" : String) ∈ fallbackKeys ∧ (addTransactions initState c2Input).2 = 1 :=
  ⟨claim_c2_amended.1 c2Input (by decide) "#UNKNOWN" (by decide), claim_c2_amended.2.1⟩

/-- C3, counterexample: on `"#oscar max bnb\nReceived: 19.99 #USDT"` the
primary pattern matches and a label is active, yet the line is dropped
(`added = 0`, empty ledger) because it has no `from` token. -/
theorem claim_c3_counterexample :
    extractAmountCurrency "Received: 19.99 #USDT" = some (1999 / 100, "USDT") ∧
      extractHashtagFromText c3Input = some "#oscar max bnb" ∧
      (addTransactions initState c3Input).2 = 0 ∧
      (addTransactions initState c3Input).1.labels = ∅ :=
  ⟨by decide, by decide, by decide, by decide⟩

/-- C3, amended: the explorer URL is optional, but the `from` token is not —
a `received:` line on which `_extract_wallet_short` finds nothing only
finalizes the previous pending transaction and is itself dropped, while the
same line with a `from` token (still no URL) is recorded and counted. -/
theorem claim_c3_amended :
    (∀ (gh : Option String) (ls : LoopSt) (raw : String),
      ¬ pyStrip raw = "" →
      (startsWithHash (pyStrip raw) && !hasChar (pyStrip raw) '|') = false →
      subS (pyLower (pyStrip raw)) "received:" = true →
      extractWalletShort (pyStrip raw) = none →
      processLine gh ls raw = finalizePending ls) ∧
      (addTransactions initState c3InputFrom).2 = 1 ∧
      (addTransactions initState c3InputFrom).1.totals "#oscar max bnb" "USDT" =
        1999 / 100 :=
  ⟨fun _ _ _ he hlab hrecv hws => received_no_from he hlab hrecv hws, by decide, by decide⟩

/-- C3, witness for the amended theorem at the concrete dropped line. -/
theorem claim_c3_witness :
    processLine none (LoopSt.mk initState 0 none none none) "Received: 19.99 #USDT" =
      finalizePending (LoopSt.mk initState 0 none none none) :=
  claim_c3_amended.1 none (LoopSt.mk initState 0 none none none) "Received: 19.99 #USDT"
    (by decide) (by decide) (by decide) (by decide)

/-- C4, counterexample: the grouping key keeps the leading `#` and the
original case — `"#Oscar   MAX bnb"` and `"#oscar max bnb"` derive different
keys, refuting the claimed stripping and lower-casing. -/
theorem claim_c4_counterexample :
    extractHashtagFromText "#Oscar   MAX bnb" = some "#Oscar MAX bnb" ∧
      extractHashtagFromText "#oscar max bnb" = some "#oscar max bnb" ∧
      ("#Oscar MAX bnb" : String) ≠ "#oscar max bnb" :=
  ⟨by decide, by decide, by decide⟩

/-- C4, amended: a `#`-line sets the label only when its hashtag passes the
filter (not a bare network tag, and multi-word or longer than five
characters); the key keeps the leading `#` and the original case, and only
internal whitespace runs are collapsed to single spaces; that collapsing is
idempotent. -/
theorem claim_c4_amended :
    (∀ s : String, collapseWs (collapseWs s) = collapseWs s) ∧
      extractHashtagFromText "#Oscar   MAX bnb" = some "#Oscar MAX bnb" ∧
      lineHashtag "#bnb" = none ∧
      lineHashtag "#abcd" = none ∧
      (addTransactions initState "#Oscar   MAX bnb\nReceived: 5 USDT from x").1.labels =
        {"#Oscar MAX bnb"} ∧
      (addTransactions initState "#oscar max bnb\nReceived: 5 USDT from x").1.labels =
        {"#oscar max bnb"} :=
  ⟨collapseWs_idem, by decide, by decide, by decide, by decide, by decide⟩

/-- C5: `add_transactions` is total (the embedding is a function); on any
text none of whose lines contains `received:` it returns `0` and leaves the
state unchanged, and a line with a malformed number (`float` fails on
`"1.2.3"`) is skipped without being counted. -/
theorem claim_c5_no_exception :
    (∀ (s : CalcState) (text : String),
      (∀ raw ∈ (splitCharL '\n' (pyStripL text.data)).map (fun l => (⟨l⟩ : String)),
        subS (pyLower (pyStrip raw)) "received:" = false) →
      addTransactions s text = (s, 0)) ∧
      parsePyFloat "1.2.3".data = none ∧
      (addTransactions initState "#some label\nReceived: 1.2.3 USDT from x").2 = 0 :=
  ⟨addTransactions_no_received, by decide, by decide⟩

/-- C5, witness at a concrete unrecognizable text. -/
theorem claim_c5_witness :
    addTransactions initState "hello\nworld" = (initState, 0) :=
  claim_c5_no_exception.1 initState "hello\nworld" (by decide)

/-- C6, counterexample: the source accumulates each cell total as a binary64
float, and float addition is not order-independent — the same multiset of
parseable amounts `{10^16, 1, 2}` fed under one label gives the cell total
`10^16 + 2` in one line order and `10^16 + 4` in the other, so the two
rendered amount lines (and hence the reports) differ byte-wise. -/
theorem claim_c6_counterexample :
    parsePyFloat "10000000000000000".data = some ((10 : ℚ) ^ 16) ∧
      roundB64 ((10 : ℚ) ^ 16) = 10 ^ 16 ∧
      List.Perm [(10 : ℚ) ^ 16, 1, 2] [(1 : ℚ), 2, 10 ^ 16] ∧
      floatSum [(10 : ℚ) ^ 16, 1, 2] = 10 ^ 16 + 2 ∧
      floatSum [(1 : ℚ), 2, 10 ^ 16] = 10 ^ 16 + 4 ∧
      fmt2 (floatSum [(10 : ℚ) ^ 16, 1, 2]) = "10000000000000002.00" ∧
      fmt2 (floatSum [(1 : ℚ), 2, 10 ^ 16]) = "10000000000000004.00" :=
  ⟨by decide, by decide,
    (List.Perm.swap 1 ((10 : ℚ) ^ 16) [2]).trans
      (List.Perm.cons 1 (List.Perm.swap 2 ((10 : ℚ) ^ 16) [])),
    by decide, by decide, by decide, by decide⟩

/-- C6, amended: the rendering pipeline is order-deterministic apart from
binary64 accumulation of the cell totals — with exact (order-independent)
accumulation, feeding the same multiset of finalized transactions in any
order yields byte-identical reports (the renderer sorts labels and
currencies and formats to two decimals), and two concrete texts with the
same float-exact transactions in different line orders render
identically. -/
theorem claim_c6_deterministic :
    (∀ l₁ l₂ : List FinTx, l₁.Perm l₂ →
      getTotalReport (l₁.foldl applyFin initState) =
        getTotalReport (l₂.foldl applyFin initState)) ∧
      getTotalReport (addTransactions initState c6InputA).1 =
        getTotalReport (addTransactions initState c6InputB).1 :=
  ⟨fun _ _ h =>
      congrArg getTotalReport (foldl_perm_of_comm applyFin applyFin_comm h initState),
    by decide⟩

/-- C6, witness: a concrete two-element permutation. -/
theorem claim_c6_witness :
    getTotalReport ([FinTx.mk "A" "USDT" 5 none, FinTx.mk "B" "TRX" 3 none].foldl
        applyFin initState) =
      getTotalReport ([FinTx.mk "B" "TRX" 3 none, FinTx.mk "A" "USDT" 5 none].foldl
        applyFin initState) :=
  claim_c6_deterministic.1 _ _
    (List.Perm.swap (FinTx.mk "B" "TRX" 3 none) (FinTx.mk "A" "USDT" 5 none) [])

/-- C7: the per-label per-currency total is additive and order-independent —
adding `(A, 5, USDT)` and `(A, 3, USDT)` in either order gives total `8`. -/
theorem claim_c7_additive :
    (ledgerAdd (ledgerAdd initState "A" "USDT" 5) "A" "USDT" 3).totals "A" "USDT" = 8 ∧
      (ledgerAdd (ledgerAdd initState "A" "USDT" 3) "A" "USDT" 5).totals "A" "USDT" = 8 :=
  ⟨by decide, by decide⟩

/-- C8: after `clear_all`, `get_status` returns `None`, and a subsequent
`add_transactions` call behaves exactly as on a freshly constructed
engine (the cleared state IS the fresh state). -/
theorem claim_c8_clear :
    ∀ (s : CalcState) (text : String),
      getStatus (clearAll s) = none ∧
        addTransactions (clearAll s) text = addTransactions initState text :=
  fun _ _ => ⟨rfl, rfl⟩

/-- C9, counterexample: on `c9Input` the pending transaction is NOT finalized
at the `#second label` marker — the explorer URL on the line after the
marker still attaches, so `wallets_seen` holds the full address instead of
the short token `abc`. -/
theorem claim_c9_counterexample :
    (addTransactions initState c9Input).1.wallets_seen =
        {"0x0123456789abcdef0123456789abcdef01234567"} ∧
      (addTransactions initState c9Input).2 = 1 ∧
      (addTransactions initState c9Input).1.totals "#first label" "USDT" = 5 ∧
      extractWalletShort "Received: 5 USDT from abc" = some "abc" :=
  ⟨by decide, by decide, by decide, by decide⟩

/-- C9, amended: deferred enrichment is bounded by the next transaction line
or the end of input only — a label-marker line leaves the pending
transaction, the count and the ledger untouched, so lines after an
intervening label marker can still attach an explorer address. -/
theorem claim_c9_amended :
    (∀ (gh : Option String) (ls : LoopSt) (raw : String),
      ¬ pyStrip raw = "" →
      (startsWithHash (pyStrip raw) && !hasChar (pyStrip raw) '|') = true →
      (processLine gh ls raw).pending = ls.pending ∧
        (processLine gh ls raw).added = ls.added ∧
        (processLine gh ls raw).st = ls.st) ∧
      (addTransactions initState c9Input).1.wallets_seen =
        {"0x0123456789abcdef0123456789abcdef01234567"} :=
  ⟨fun _ _ _ he hlab => labelLine_state he hlab, by decide⟩

/-- C9, witness: a concrete label-marker line crossing a pending
transaction. -/
theorem claim_c9_witness :
    (processLine none
        (LoopSt.mk initState 0
          (some (PendingTx.mk 5 "USDT" "UNKNOWN" "abc" none (some "#first label")))
          none none) "#second label").pending =
      (LoopSt.mk initState 0
        (some (PendingTx.mk 5 "USDT" "UNKNOWN" "abc" none (some "#first label")))
        none none).pending :=
  (claim_c9_amended.1 none _ "#second label" (by decide) (by decide)).1

/-- C10: the active-label state is call-local — the `added` count and the
totals delta of a call depend only on the text of that call (not on the
prior state), and grouping comes from label markers anywhere in the message,
including after a transaction line. -/
theorem claim_c10_call_local :
    (∀ (s : CalcState) (text : String),
      (addTransactions s text).2 = (addTransactions initState text).2 ∧
        ∀ l c, (addTransactions s text).1.totals l c =
          s.totals l c + (addTransactions initState text).1.totals l c) ∧
      (addTransactions initState c10Input).1.labels = {"#late label"} ∧
      (addTransactions initState c10Input).2 = 1 := by
  refine ⟨?_, by decide, by decide⟩
  intro s text
  constructor
  · rw [addTransactions_eq_parse s text, addTransactions_eq_parse initState text]
  · intro l c
    rw [addTransactions_eq_parse s text, addTransactions_eq_parse initState text]
    dsimp only
    rw [foldl_totals, foldl_totals]
    show _ = s.totals l c + (0 + contribSum (parseTx text) l c)
    rw [zero_add]

end Calc
